import Mathlib

/-!
# Verification of the git-llm-reviewer review pipeline core

A shallow embedding, in Lean 4, of the review pipeline core of the
git-llm-reviewer repository: the retry/backoff executor (`pkg/retry`),
the LLM retryability classifier (`pkg/retry/llm.go`), the resilient
response parser (`pkg/parse`), and the concurrent file processor
(`pkg/processor`), together with theorems checking the natural-language
specification against this embedding.

Go strings are modelled as `List Char`; `time.Duration` delays as integer
nanosecond counts (`ℤ`, `time.Duration` being an `int64`), `float64` factors
as rationals, and the `float64`-to-`time.Duration` conversion as exact
rational arithmetic truncated toward zero to an integral count, as Go's
float-to-integer conversion does (the rounding of the `float64` product
itself to the nearest representable float is not modelled); fallible Go
functions as `Except`-valued Lean functions; and Go errors as a structure
carrying the message together with the identity facts used by `errors.Is`
in the source.
-/

namespace GitLLM

/-- Character class of Go's `regexp` `\s` (ASCII): space, tab, newline,
form feed, carriage return.  Note Go's `\s` does not include vertical tab. -/
def isReSpace (c : Char) : Bool :=
  c = ' ' || c = '\t' || c = '\n' || c = '\x0c' || c = '\r'

/-- Whitespace as recognised by Go's `strings.TrimSpace` (`unicode.IsSpace`),
restricted to the ASCII range: space, tab, newline, vertical tab, form feed,
carriage return. -/
def isGoSpace (c : Char) : Bool :=
  c = ' ' || c = '\t' || c = '\n' || c = '\x0b' || c = '\x0c' || c = '\r'

/-- `strings.TrimSpace`: drop leading and trailing whitespace. -/
def trimSpace (s : List Char) : List Char :=
  ((s.dropWhile isGoSpace).reverse.dropWhile isGoSpace).reverse

/-- `strings.Contains hay sub` (for the substring tests of the retry
classifier): `true` iff `sub` occurs as a contiguous substring of `hay`.
`strings.Contains s "" = true`, as in Go. -/
def strContains (hay sub : List Char) : Bool :=
  match hay with
  | [] => sub.isEmpty
  | _ :: t => sub.isPrefixOf hay || strContains t sub

/-- `strings.ToLower`, restricted to ASCII (all substrings compared in the
source are ASCII). -/
def toLowerStr (s : List Char) : List Char :=
  s.map Char.toLower

/-- Fuel-bounded body of `replaceAll`; the fuel (the input length at the
top-level call) dominates the number of steps because every step consumes
at least one character of `s`. -/
def replaceAllAux (pat new : List Char) : Nat → List Char → List Char
  | 0, s => s
  | fuel + 1, s =>
    match s with
    | [] => []
    | c :: rest =>
      if pat ≠ [] ∧ pat.isPrefixOf (c :: rest) then
        new ++ replaceAllAux pat new fuel ((c :: rest).drop pat.length)
      else
        c :: replaceAllAux pat new fuel rest

/-- `strings.ReplaceAll s pat new` for a non-empty pattern `pat`: replace
every non-overlapping occurrence of `pat`, scanning left to right, never
rescanning replacement text.  (All patterns in the source are non-empty;
for `pat = []` this returns `s` unchanged.) -/
def replaceAll (s pat new : List Char) : List Char :=
  replaceAllAux pat new s.length s

/-- A Go `error` value: the message (`err.Error()`) together with the
identity facts the source tests with `errors.Is`: whether the error is (or
wraps) `context.DeadlineExceeded`, and whether it is (or wraps)
`llm.ErrTimeout`. -/
structure GoError where
  msg : List Char
  isDeadlineExceeded : Bool := false
  isLLMTimeout : Bool := false
deriving DecidableEq, Repr

/-! ## Retry executor (`pkg/retry`, source function `Do`)

Delays are modelled as integer nanosecond counts: `time.Duration` is an
`int64` of nanoseconds, and each `time.Duration(float64-expression)`
conversion in the source truncates its argument toward zero, which `truncQ`
models over exact rationals.  The randomness source
`rand.Rand` used for jitter is modelled as an oracle `rnd : Nat → ℚ` giving
the value of `rnd.Float64()` (a number in `[0,1)`) at each retry.  An
operation `fn` is modelled as a function from the attempt index to the
`(result, error)` pair it returns on that invocation. -/

/-- Go's conversion of a `float64` to an integer type (here
`time.Duration`): discard the fractional part, truncating toward zero. -/
def truncQ (q : ℚ) : ℤ :=
  if 0 ≤ q then ⌊q⌋ else ⌈q⌉

/-- `retry.Options` (the spec's RetryPolicy): retry budget, delay policy and
error classification.  `isRetryableFunc` models the optional custom
predicate field `IsRetryableFunc`; `retryableErrors` models the
`RetryableErrors` list (by the messages of its errors).  The `Logger` field
of the source only produces log output and is not modelled. -/
structure Options where
  maxRetries : Nat
  initialDelay : ℤ := 0
  maxDelay : ℤ := 0
  backoffFactor : ℚ := 0
  jitterFactor : ℚ := 0
  retryableErrors : List (List Char) := []
  isRetryableFunc : Option (GoError → Bool) := none

/-- `retry.IsRetryable` (source lines 126-139): an error is retryable when
its message contains the message of one of the configured retryable errors
as a substring.  (The `err == nil` guard of the source is vacuous here
because the executor only classifies non-nil errors.) -/
def IsRetryable (e : GoError) (retryableErrors : List (List Char)) : Bool :=
  retryableErrors.any (fun r => strContains e.msg r)

/-- `retry.isRetryable` (source lines 142-150): the custom predicate takes
precedence over the substring list. -/
def isRetryableOpts (e : GoError) (opts : Options) : Bool :=
  match opts.isRetryableFunc with
  | some f => f e
  | none => IsRetryable e opts.retryableErrors

/-- The delay update of `Do` (source lines 96-107): the first retry uses
`InitialDelay`; every later retry multiplies the previous delay by
`BackoffFactor` — `time.Duration(float64(delay) * opts.BackoffFactor)`,
truncating the product back to whole nanoseconds — and caps the result at
`MaxDelay`. -/
def nextDelay (opts : Options) (attempt : Nat) (delay : ℤ) : ℤ :=
  if attempt = 0 then opts.initialDelay
  else
    let d := truncQ ((delay : ℚ) * opts.backoffFactor)
    if d > opts.maxDelay then opts.maxDelay else d

/-- The jitter step of `Do` (source lines 109-113): when `JitterFactor > 0`,
add `rnd*jitter*2 - jitter` with `jitter = float64(delay) * JitterFactor`
and `rnd ∈ [0,1)`, truncating the `float64` sum back to whole nanoseconds;
otherwise leave the delay unchanged. -/
def applyJitter (opts : Options) (rnd : ℚ) (delay : ℤ) : ℤ :=
  if opts.jitterFactor > 0 then
    let jitter := (delay : ℚ) * opts.jitterFactor
    truncQ ((delay : ℚ) + (rnd * jitter * 2 - jitter))
  else delay

/-- The loop body of `retry.Do` (source lines 72-119).  `rem` is the number
of retries still allowed (`MaxRetries - attempt`), `delay` the mutable
`delay` variable.  Returns the final `(result, error)` outcome, the number
of invocations of `fn` performed, and the list of delays slept (the
argument of each `time.Sleep` call), in order. -/
def doAux {α : Type} (fn : Nat → α × Option GoError) (opts : Options)
    (rnd : Nat → ℚ) :
    Nat → Nat → ℤ → (Except GoError α × Nat × List ℤ)
  | rem, attempt, delay =>
    let (res, err) := fn attempt
    match err with
    | none => (.ok res, attempt + 1, [])
    | some e =>
      if ¬ isRetryableOpts e opts then (.error e, attempt + 1, [])
      else
        match rem with
        | 0 => (.error e, attempt + 1, [])
        | rem' + 1 =>
          let d := nextDelay opts attempt delay
          let d' := applyJitter opts (rnd attempt) d
          let (r, n, ds) := doAux fn opts rnd rem' (attempt + 1) d'
          (r, n, d' :: ds)

/-- `retry.Do` (source lines 58-123): run `fn` up to `MaxRetries + 1` times.
The loop enters with `attempt = 0` and `delay = 0`. -/
def retryDo {α : Type} (fn : Nat → α × Option GoError) (opts : Options)
    (rnd : Nat → ℚ) : Except GoError α × Nat × List ℤ :=
  doAux fn opts rnd opts.maxRetries 0 0

/-- The sequence of successive retry delays computed by `Do`'s delay update
(source lines 96-107) in the absence of jitter: `delaySeq ... k` is the
delay (in whole nanoseconds) before retry `k + 1`. -/
def delaySeq (initialDelay maxDelay : ℤ) (backoffFactor : ℚ) : Nat → ℤ
  | 0 => initialDelay
  | k + 1 =>
    let d := truncQ
      ((delaySeq initialDelay maxDelay backoffFactor k : ℚ) * backoffFactor)
    if d > maxDelay then maxDelay else d

/-! ## LLM retryability classifier and request wrapper (`pkg/retry/llm.go`) -/

/-- The messages of `DefaultLLMRetryableErrors` (source lines 31-41). -/
def defaultLLMRetryableErrors : List (List Char) :=
  ["timeout".data, "connection reset".data, "rate limit".data,
   "too many requests".data, "server error".data,
   "internal server error".data, "service unavailable".data]

/-- `retry.IsLLMErrorRetryable` (source lines 44-84).  The argument is
`Option GoError` because the source first tests `err == nil`. -/
def IsLLMErrorRetryable : Option GoError → Bool
  | none => false
  | some e =>
    if e.isDeadlineExceeded then true
    else if e.isLLMTimeout then true
    else if strContains e.msg "429".data || strContains e.msg "500".data ||
        strContains e.msg "502".data || strContains e.msg "503".data ||
        strContains e.msg "504".data then true
    else if defaultLLMRetryableErrors.any
        (fun r => strContains (toLowerStr e.msg) (toLowerStr r)) then true
    else if strContains (toLowerStr e.msg) "rate limit".data ||
        strContains (toLowerStr e.msg) "rate_limit".data ||
        strContains (toLowerStr e.msg) "too many requests".data then true
    else false

/-- An `*http.Response` as far as the retry layer inspects it. -/
structure HTTPResponse where
  statusCode : Nat
deriving DecidableEq, Repr

/-- The error built by `errors.New("rate limit exceeded")` in
`DoLLMRequest` (source line 110). -/
def rateLimitExceededErr : GoError :=
  { msg := "rate limit exceeded".data }

/-- The closure `DoLLMRequest` wraps around the transport call `fn`
(source lines 105-114): a response carrying status 429 is replaced by a
synthesized rate-limit error even when the transport reported no error;
otherwise the transport's `(resp, err)` pair passes through unchanged. -/
def wrapLLMOperation (call : Option HTTPResponse × Option GoError) :
    Option HTTPResponse × Option GoError :=
  match call with
  | (some resp, err) =>
    if resp.statusCode = 429 then (none, some rateLimitExceededErr)
    else (some resp, err)
  | (none, err) => (none, err)

/-- `retry.DoLLMRequest` (source lines 90-127), with the options already
derived from configuration by `FromConfig` passed in as `opts`: install
`IsLLMErrorRetryable` as the classifier and run the wrapped transport call
under `retry.Do`.  The final type-assertion step of the source cannot fail
in this model and is omitted. -/
def DoLLMRequest (fn : Nat → Option HTTPResponse × Option GoError)
    (opts : Options) (rnd : Nat → ℚ) :
    Except GoError (Option HTTPResponse) × Nat × List ℤ :=
  retryDo (fun k => wrapLLMOperation (fn k))
    { opts with isRetryableFunc := some (fun e => IsLLMErrorRetryable (some e)) }
    rnd

/-! ## Resilient response parser (`pkg/parse`, `pkg/util`)

The regular expressions of the source are embedded as explicit scanners
implementing Go's leftmost, Perl-style submatch semantics for exactly the
patterns the source compiles. -/

/-- `strings.Index s sub`: index of the first occurrence of `sub` in `s`,
`none` when absent (Go returns `-1`). -/
def findSubIdx (s sub : List Char) : Option Nat :=
  match s with
  | [] => if sub.isEmpty then some 0 else none
  | _ :: t =>
    if sub.isPrefixOf s then some 0 else (findSubIdx t sub).map (· + 1)

/-- `util.RemoveThinkTags`: when the closing marker `</think>` occurs,
drop everything up to and including it and trim the rest; otherwise return
the content unchanged. -/
def RemoveThinkTags (content : List Char) : List Char :=
  match findSubIdx content "</think>".data with
  | some i => trimSpace (content.drop (i + 8))
  | none => content

/-- Does the suffix `s` match the fence-closing pattern
`\n\s*` followed by three backticks followed by `\s*` at end of input?
(The tail of `cleanResponse`'s anchored fence regexes.) -/
def fenceSuffixAt (s : List Char) : Bool :=
  match s with
  | '\n' :: rest =>
    let r1 := rest.dropWhile isReSpace
    "```".data.isPrefixOf r1 && (r1.drop 3).all isReSpace
  | _ => false

/-- Content captured by the non-greedy group of the fence regex: the prefix
of `s` before the earliest position whose suffix matches the fence-closing
pattern. -/
def splitAtFenceSuffix (s : List Char) : Option (List Char) :=
  if fenceSuffixAt s then some []
  else
    match s with
    | [] => none
    | c :: rest => (splitAtFenceSuffix rest).map (c :: ·)

/-- Positions (relative indices) of `'\n'` characters in `run`, starting at
offset `i`. -/
def nlIndicesAux : List Char → Nat → List Nat
  | [], _ => []
  | c :: t, i => (if c = '\n' then [i] else []) ++ nlIndicesAux t (i + 1)

/-- Try candidate positions (the offsets of the newline consumed by
`\s*\n`, longest whitespace prefix first, as a backtracking regex engine
would) and return the captured content of the first that completes
the fence match. -/
def tryFenceCandidates (afterTag : List Char) : List Nat → Option (List Char)
  | [] => none
  | p :: ps =>
    match splitAtFenceSuffix (afterTag.drop (p + 1)) with
    | some content => some content
    | none => tryFenceCandidates afterTag ps

/-- One fence-strip regex of `cleanResponse` (source lines 304-305):
`^\s*TAG\s*\n(.*?)\n\s*`(three backticks)`\s*$` replaced by the captured
group; `tag` is the literal opening fence (with or without the `json`
language tag).  When the regex does not match, the input is returned
unchanged. -/
def stripFenceTag (tag : List Char) (s : List Char) : List Char :=
  let body := s.dropWhile isReSpace
  if tag.isPrefixOf body then
    let afterTag := body.drop tag.length
    let run := afterTag.takeWhile isReSpace
    match tryFenceCandidates afterTag ((nlIndicesAux run 0).reverse) with
    | some content => content
    | none => s
  else s

/-- `parse.cleanResponse` (source lines 302-309): strip a wrapping markdown
code fence (first the ````json` form, then the untagged form), then trim
whitespace. -/
def cleanResponse (s : List Char) : List Char :=
  trimSpace (stripFenceTag "```".data (stripFenceTag "```json".data s))

/-- Scanner for the string-literal regex `"((?:\\.|[^"])*?)"` of
`preprocessSpecialChars`, entered after an opening quote: returns the
literal's content and the remainder after the closing quote.  A backslash
normally consumes the next character (the `\\.` branch); when that branch
cannot reach a closing quote the engine backtracks and the backslash
matches `[^"]` on its own, which the second alternative models. -/
def scanLitAux : Nat → List Char → Option (List Char × List Char)
  | 0, _ => none
  | fuel + 1, s =>
    match s with
    | [] => none
    | '"' :: rest => some ([], rest)
    | '\\' :: c :: rest =>
      (match scanLitAux fuel rest with
       | some (content, rem) => some ('\\' :: c :: content, rem)
       | none =>
         match scanLitAux fuel (c :: rest) with
         | some (content, rem) => some ('\\' :: content, rem)
         | none => none)
    | c :: rest =>
      match scanLitAux fuel rest with
      | some (content, rem) => some (c :: content, rem)
      | none => none

/-- Entry point of the literal scanner; the fuel (the input length)
dominates the recursion depth because every recursive call is on a
strictly shorter list. -/
def scanLit (s : List Char) : Option (List Char × List Char) :=
  scanLitAux s.length s

/-- The replacement function applied to each string literal's content by
`preprocessSpecialChars` (source lines 317-333): escape literal control
characters, preserve already-escaped quotes, escape bare quotes. -/
def escapeLiteralContent (content : List Char) : List Char :=
  let c1 := replaceAll content ['\t'] ['\\', 't']
  let c2 := replaceAll c1 ['\r'] ['\\', 'r']
  let c3 := replaceAll c2 ['\n'] ['\\', 'n']
  let c4 := replaceAll c3 ['\x08'] ['\\', 'b']
  let c5 := replaceAll c4 ['\x0c'] ['\\', 'f']
  let c6 := replaceAll c5 ['\\', '"'] ['\\', '"']
  replaceAll c6 ['"'] ['\\', '"']

/-- The literal-rewriting pass of `preprocessSpecialChars`
(`ReplaceAllStringFunc` over the string-literal regex): rewrite each
matched string literal, leave everything else untouched.  The fuel is the
input length, which bounds the number of steps since every step consumes at
least one character. -/
def processLiteralsAux : Nat → List Char → List Char
  | 0, s => s
  | fuel + 1, s =>
    match s with
    | [] => []
    | '"' :: rest =>
      (match scanLit rest with
       | some (content, rem) =>
         '"' :: (escapeLiteralContent content ++ '"' :: processLiteralsAux fuel rem)
       | none => '"' :: processLiteralsAux fuel rest)
    | c :: rest => c :: processLiteralsAux fuel rest

/-- The trailing-comma regex `,(\s*)(\}|\])` of `preprocessSpecialChars`
(source line 337), replaced globally by `$1$2`: a comma followed by
whitespace and a closing brace or bracket loses the comma; scanning resumes
after the bracket.  Fuel as in `processLiteralsAux`. -/
def removeTrailingCommasAux : Nat → List Char → List Char
  | 0, s => s
  | fuel + 1, s =>
    match s with
    | [] => []
    | ',' :: rest =>
      let ws := rest.takeWhile isReSpace
      (match rest.drop ws.length with
       | '}' :: r => ws ++ '}' :: removeTrailingCommasAux fuel r
       | ']' :: r => ws ++ ']' :: removeTrailingCommasAux fuel r
       | _ => ',' :: removeTrailingCommasAux fuel rest)
    | c :: rest => c :: removeTrailingCommasAux fuel rest

/-- `parse.preprocessSpecialChars` (source lines 312-345). -/
def preprocessSpecialChars (s : List Char) : List Char :=
  let lit := processLiteralsAux s.length s
  removeTrailingCommasAux lit.length lit

/-! ### The strict decode: `encoding/json` on the review schema

`json.Unmarshal` is modelled by a JSON value parser plus a binding step
onto the `{issues, diffs}` struct shape, reproducing the behaviours the
source depends on: case-insensitive field-name matching, later duplicate
keys overwriting earlier ones, unknown fields ignored, `null` leaving a
field at its zero value (and resetting a slice), any type mismatch or
syntax error reported as a non-nil error, and unescaped control characters
inside string literals rejected. -/

/-- A parsed JSON value.  Numbers keep their raw text; no field of the
review schema accepts a number, so their value is never needed. -/
inductive JVal where
  | null
  | bool (b : Bool)
  | num (raw : List Char)
  | str (s : List Char)
  | arr (elems : List JVal)
  | obj (fields : List (List Char × JVal))

/-- JSON insignificant whitespace. -/
def isJsonWs (c : Char) : Bool :=
  c = ' ' || c = '\t' || c = '\n' || c = '\r'

/-- Value of a hexadecimal digit. -/
def hexVal (c : Char) : Option Nat :=
  if '0' ≤ c ∧ c ≤ '9' then some (c.toNat - '0'.toNat)
  else if 'a' ≤ c ∧ c ≤ 'f' then some (c.toNat - 'a'.toNat + 10)
  else if 'A' ≤ c ∧ c ≤ 'F' then some (c.toNat - 'A'.toNat + 10)
  else none

/-- Decode a JSON string body (after the opening quote): handles the
standard escapes, `\uXXXX` (with surrogate pairs combined and lone
surrogates replaced by U+FFFD, as `encoding/json` does), and rejects
unescaped control characters.  Returns the decoded text and the remainder
after the closing quote. -/
def parseJStringAux : Nat → List Char → Option (List Char × List Char)
  | 0, _ => none
  | fuel + 1, s =>
    match s with
      | [] => none
      | '"' :: rest => some ([], rest)
      | '\\' :: 'u' :: h1 :: h2 :: h3 :: h4 :: rest =>
        (match hexVal h1, hexVal h2, hexVal h3, hexVal h4 with
         | some a, some b, some c, some d =>
           let n := ((a * 16 + b) * 16 + c) * 16 + d
           if 0xD800 ≤ n ∧ n ≤ 0xDBFF then
             match rest with
             | '\\' :: 'u' :: g1 :: g2 :: g3 :: g4 :: rest' =>
               (match hexVal g1, hexVal g2, hexVal g3, hexVal g4 with
                | some a', some b', some c', some d' =>
                  let m := ((a' * 16 + b') * 16 + c') * 16 + d'
                  if 0xDC00 ≤ m ∧ m ≤ 0xDFFF then
                    (fun p => (Char.ofNat (0x10000 + (n - 0xD800) * 0x400 + (m - 0xDC00)) :: p.1, p.2))
                      <$> parseJStringAux fuel rest'
                  else
                    (fun p => ('\ufffd' :: p.1, p.2))
                      <$> parseJStringAux fuel ('\\' :: 'u' :: g1 :: g2 :: g3 :: g4 :: rest')
                | _, _, _, _ =>
                  (fun p => ('\ufffd' :: p.1, p.2))
                    <$> parseJStringAux fuel ('\\' :: 'u' :: g1 :: g2 :: g3 :: g4 :: rest'))
             | other => (fun p => ('\ufffd' :: p.1, p.2)) <$> parseJStringAux fuel other
           else if 0xDC00 ≤ n ∧ n ≤ 0xDFFF then
             (fun p => ('\ufffd' :: p.1, p.2)) <$> parseJStringAux fuel rest
           else
             (fun p => (Char.ofNat n :: p.1, p.2)) <$> parseJStringAux fuel rest
         | _, _, _, _ => none)
      | '\\' :: c :: rest =>
        (match c with
         | '"' => (fun p => ('"' :: p.1, p.2)) <$> parseJStringAux fuel rest
         | '\\' => (fun p => ('\\' :: p.1, p.2)) <$> parseJStringAux fuel rest
         | '/' => (fun p => ('/' :: p.1, p.2)) <$> parseJStringAux fuel rest
         | 'b' => (fun p => ('\x08' :: p.1, p.2)) <$> parseJStringAux fuel rest
         | 'f' => (fun p => ('\x0c' :: p.1, p.2)) <$> parseJStringAux fuel rest
         | 'n' => (fun p => ('\n' :: p.1, p.2)) <$> parseJStringAux fuel rest
         | 'r' => (fun p => ('\r' :: p.1, p.2)) <$> parseJStringAux fuel rest
         | 't' => (fun p => ('\t' :: p.1, p.2)) <$> parseJStringAux fuel rest
         | _ => none)
      | c :: rest =>
        if c.toNat < 0x20 then none
        else (fun p => (c :: p.1, p.2)) <$> parseJStringAux fuel rest

/-- Entry point of the JSON string-body decoder; the fuel (the input
length) dominates the recursion depth. -/
def parseJString (s : List Char) : Option (List Char × List Char) :=
  parseJStringAux s.length s


/-- Parse a JSON number (raw text), validating the JSON number grammar. -/
def parseJNum (s : List Char) : Option (List Char × List Char) :=
  let (neg, s1) := match s with
    | '-' :: r => (['-'], r)
    | _ => ([], s)
  match s1 with
  | '0' :: r =>
    (match r with
     | c :: _ => if c.isDigit then none else parseJNumFrac (neg ++ ['0']) r
     | [] => some (neg ++ ['0'], []))
  | c :: _ =>
    if c.isDigit then
      let ds := s1.takeWhile Char.isDigit
      parseJNumFrac (neg ++ ds) (s1.dropWhile Char.isDigit)
    else none
  | [] => none
where
  parseJNumFrac (acc : List Char) (s : List Char) : Option (List Char × List Char) :=
    let (acc1, s1) :=
      match s with
      | '.' :: r =>
        let ds := r.takeWhile Char.isDigit
        if ds.isEmpty then ([], ['.'])
        else (acc ++ '.' :: ds, r.dropWhile Char.isDigit)
      | _ => (acc, s)
    if acc1.isEmpty then none
    else
      match s1 with
      | e :: r =>
        if e = 'e' ∨ e = 'E' then
          let (sgn, r1) := match r with
            | '+' :: r' => (['+'], r')
            | '-' :: r' => (['-'], r')
            | _ => (([] : List Char), r)
          let ds := r1.takeWhile Char.isDigit
          if ds.isEmpty then none
          else some (acc1 ++ e :: (sgn ++ ds), r1.dropWhile Char.isDigit)
        else some (acc1, s1)
      | [] => some (acc1, [])

/-- Parse one JSON value (recursive descent, fuel-bounded; the fuel chosen
by `parseJSON` dominates the recursion depth).  The elements of a non-empty
array and the members of a non-empty object are consumed one per recursive
step: after an element and a comma, the rest of the collection is parsed by
re-entering the value parser on the tail prefixed with the opening bracket
again (with a guard rejecting the trailing-comma forms `,]` and `,}`, which
are not valid JSON). -/
def parseJVal : Nat → List Char → Option (JVal × List Char)
  | 0, _ => none
  | fuel + 1, s =>
    let s1 := s.dropWhile isJsonWs
    if "null".data.isPrefixOf s1 then some (.null, s1.drop 4)
    else if "true".data.isPrefixOf s1 then some (.bool true, s1.drop 4)
    else if "false".data.isPrefixOf s1 then some (.bool false, s1.drop 5)
    else
      match s1 with
      | '"' :: rest => (fun p => (JVal.str p.1, p.2)) <$> parseJString rest
      | '[' :: rest =>
        let r1 := rest.dropWhile isJsonWs
        (match r1 with
         | ']' :: r2 => some (.arr [], r2)
         | _ =>
           match parseJVal fuel r1 with
           | none => none
           | some (v, r) =>
             match r.dropWhile isJsonWs with
             | ']' :: r3 => some (.arr [v], r3)
             | ',' :: r3 =>
               let r4 := r3.dropWhile isJsonWs
               (match r4 with
                | ']' :: _ => none
                | _ =>
                  match parseJVal fuel ('[' :: r4) with
                  | some (.arr vs, r5) => some (.arr (v :: vs), r5)
                  | _ => none)
             | _ => none)
      | '{' :: rest =>
        let r1 := rest.dropWhile isJsonWs
        (match r1 with
         | '}' :: r2 => some (.obj [], r2)
         | '"' :: rest2 =>
           (match parseJString rest2 with
            | none => none
            | some (key, r2) =>
              match r2.dropWhile isJsonWs with
              | ':' :: r3 =>
                (match parseJVal fuel r3 with
                 | none => none
                 | some (v, r4) =>
                   match r4.dropWhile isJsonWs with
                   | '}' :: r5 => some (.obj [(key, v)], r5)
                   | ',' :: r5 =>
                     let r6 := r5.dropWhile isJsonWs
                     (match r6 with
                      | '}' :: _ => none
                      | _ =>
                        match parseJVal fuel ('{' :: r6) with
                        | some (.obj kvs, r7) => some (.obj ((key, v) :: kvs), r7)
                        | _ => none)
                   | _ => none)
              | _ => none)
         | _ => none)
      | _ => (fun p => (JVal.num p.1, p.2)) <$> parseJNum s1

/-- Parse a complete JSON document: one value with only whitespace after
it, as `json.Unmarshal` requires. -/
def parseJSON (s : List Char) : Option JVal :=
  match parseJVal (2 * s.length + 2) s with
  | some (v, rest) => if (rest.dropWhile isJsonWs).isEmpty then some v else none
  | none => none

/-- `parse.Issue` (source lines 218-223). -/
structure Issue where
  title : List Char
  explanation : List Char
  diff : List Char
  file : List Char
deriving DecidableEq, Repr

/-- `parse.FileDiff` (source lines 226-229). -/
structure FileDiff where
  file : List Char
  diff : List Char
deriving DecidableEq, Repr

/-- `parse.JSONReviewResult` (source lines 212-215). -/
structure JSONReviewResult where
  issues : List Issue
  diffs : List FileDiff
deriving DecidableEq, Repr

/-- `parse.ReviewResult` (response.go lines 122-126). -/
structure ReviewResult where
  issues : List Issue
  diffs : List FileDiff
deriving DecidableEq, Repr

/-- Unmarshal a JSON value into a Go `string` field: strings assign, `null`
leaves the current value, anything else is a type error. -/
def decodeStringField (v : JVal) (cur : List Char) : Option (List Char) :=
  match v with
  | .str s => some s
  | .null => some cur
  | _ => none

/-- Unmarshal one JSON value into an `Issue`: fields matched by name
case-insensitively (the struct tags are all lower case), later duplicates
overwriting, unknown keys ignored. -/
def decodeIssue (v : JVal) : Option Issue :=
  match v with
  | .obj fields =>
    fields.foldlM (fun (acc : Issue) kv =>
      let kl := toLowerStr kv.1
      if kl = "title".data then
        (fun t => { acc with title := t }) <$> decodeStringField kv.2 acc.title
      else if kl = "explanation".data then
        (fun t => { acc with explanation := t }) <$> decodeStringField kv.2 acc.explanation
      else if kl = "diff".data then
        (fun t => { acc with diff := t }) <$> decodeStringField kv.2 acc.diff
      else if kl = "file".data then
        (fun t => { acc with file := t }) <$> decodeStringField kv.2 acc.file
      else some acc) ⟨[], [], [], []⟩
  | .null => some ⟨[], [], [], []⟩
  | _ => none

/-- Unmarshal one JSON value into a `FileDiff`. -/
def decodeFileDiff (v : JVal) : Option FileDiff :=
  match v with
  | .obj fields =>
    fields.foldlM (fun (acc : FileDiff) kv =>
      let kl := toLowerStr kv.1
      if kl = "file".data then
        (fun t => { acc with file := t }) <$> decodeStringField kv.2 acc.file
      else if kl = "diff".data then
        (fun t => { acc with diff := t }) <$> decodeStringField kv.2 acc.diff
      else some acc) ⟨[], []⟩
  | .null => some ⟨[], []⟩
  | _ => none

/-- Unmarshal into the `Issues` slice: an array decodes element-wise,
`null` resets the slice, anything else is a type error. -/
def decodeIssuesField (v : JVal) : Option (List Issue) :=
  match v with
  | .arr elems => elems.mapM decodeIssue
  | .null => some []
  | _ => none

/-- Unmarshal into the `Diffs` slice. -/
def decodeDiffsField (v : JVal) : Option (List FileDiff) :=
  match v with
  | .arr elems => elems.mapM decodeFileDiff
  | .null => some []
  | _ => none

/-- Bind a parsed JSON value to `JSONReviewResult`: the top level must be
an object; `issues` and `diffs` keys (case-insensitive) decode into the two
slices, other keys are ignored. -/
def decodeReview (v : JVal) : Option JSONReviewResult :=
  match v with
  | .obj fields =>
    fields.foldlM (fun (acc : JSONReviewResult) kv =>
      let kl := toLowerStr kv.1
      if kl = "issues".data then
        (fun is => { acc with issues := is }) <$> decodeIssuesField kv.2
      else if kl = "diffs".data then
        (fun ds => { acc with diffs := ds }) <$> decodeDiffsField kv.2
      else some acc) ⟨[], []⟩
  | _ => none

/-- `json.Unmarshal(data, &JSONReviewResult{})`: `some` models a nil error,
`none` a non-nil one (the partially-filled result Go leaves behind on a
deferred type error is never read by the source, which gates on
`directErr == nil`). -/
def jsonUnmarshalReview (s : List Char) : Option JSONReviewResult :=
  (parseJSON s).bind decodeReview

/-! ### Lenient extraction (`ParseJSONReviewLenient`, `extractRobustDiffs`) -/

/-- Match the pattern `"NAME"\s*:\s*"([^"]+)"` anchored at the start of
`s`: the literal quoted field name, optional whitespace around the colon,
then a non-empty run of non-quote characters closed by a quote.  Returns
the captured group and the remainder after the closing quote. -/
def matchStrField (name : List Char) (s : List Char) : Option (List Char × List Char) :=
  let pat := '"' :: (name ++ ['"'])
  if pat.isPrefixOf s then
    match (s.drop pat.length).dropWhile isReSpace with
    | ':' :: r2 =>
      (match r2.dropWhile isReSpace with
       | '"' :: r4 =>
         let content := r4.takeWhile (· ≠ '"')
         if content.isEmpty then none
         else
           match r4.drop content.length with
           | '"' :: r5 => some (content, r5)
           | _ => none
       | _ => none)
    | _ => none
  else none

/-- Leftmost match of `matchStrField` at any position of `s`. -/
def searchStrField (name : List Char) : List Char → Option (List Char × List Char)
  | [] => none
  | c :: t =>
    match matchStrField name (c :: t) with
    | some r => some r
    | none => searchStrField name t

/-- All matches of the lenient issue regex
`(?s)"title"\s*:\s*"([^"]+)".*?"explanation"\s*:\s*"([^"]+)"`
(source line 275), with Go's semantics: a match starts at an occurrence of
the title field, the non-greedy gap takes the nearest following
explanation field, and scanning resumes after each match
(non-overlapping).  Fuel bounds the number of steps; every step consumes
at least one character. -/
def lenientIssueMatches : Nat → List Char → List (List Char × List Char)
  | 0, _ => []
  | fuel + 1, s =>
    match s with
    | [] => []
    | c :: t =>
      match matchStrField "title".data (c :: t) with
      | some (title, rem1) =>
        (match searchStrField "explanation".data rem1 with
         | some (expl, rem2) => (title, expl) :: lenientIssueMatches fuel rem2
         | none => lenientIssueMatches fuel t)
      | none => lenientIssueMatches fuel t

/-- All non-overlapping matches of the file-field regex
`"file"\s*:\s*"([^"]+)"` (source line 361).  For each match the pair holds
the captured path and the suffix of the input starting at the end of the
captured group (index `fileMatch[3]` of the source, i.e. beginning with
the path's closing quote). -/
def fileFieldMatches : Nat → List Char → List (List Char × List Char)
  | 0, _ => []
  | fuel + 1, s =>
    match s with
    | [] => []
    | c :: t =>
      match matchStrField "file".data (c :: t) with
      | some (path, rem) => (path, '"' :: rem) :: fileFieldMatches fuel rem
      | none => fileFieldMatches fuel t

/-- Match `"diff"\s*:\s*"` (source line 374) anchored at the start of `s`,
returning the remainder after the opening quote of the diff content. -/
def matchDiffStart (s : List Char) : Option (List Char) :=
  let pat := '"' :: ("diff".data ++ ['"'])
  if pat.isPrefixOf s then
    match (s.drop pat.length).dropWhile isReSpace with
    | ':' :: r2 =>
      (match r2.dropWhile isReSpace with
       | '"' :: r4 => some r4
       | _ => none)
    | _ => none
  else none

/-- Leftmost match of `matchDiffStart` at any position of `s`. -/
def searchDiffStart : List Char → Option (List Char)
  | [] => none
  | c :: t =>
    match matchDiffStart (c :: t) with
    | some r => some r
    | none => searchDiffStart t

/-- The escape-aware scan of `extractRobustDiffs` (source lines 386-409):
walk forward, a backslash always skipping the following character, until
the first unescaped quote; return the raw content before it, or `none`
when the input ends first. -/
def scanToUnescapedQuoteAux : Nat → List Char → Option (List Char)
  | 0, _ => none
  | fuel + 1, s =>
    match s with
    | [] => none
    | '"' :: _ => some []
    | '\\' :: c :: rest =>
      (fun tail => '\\' :: c :: tail) <$> scanToUnescapedQuoteAux fuel rest
    | '\\' :: [] => none
    | c :: rest => (fun tail => c :: tail) <$> scanToUnescapedQuoteAux fuel rest

/-- Entry point of the escape-aware quote scan; the fuel (the input
length) dominates the recursion depth. -/
def scanToUnescapedQuote (s : List Char) : Option (List Char) :=
  scanToUnescapedQuoteAux s.length s

/-- `parse.unescapeJSONString` (source lines 430-439): sequential
whole-string replacements, in the source's order. -/
def unescapeJSONString (s : List Char) : List Char :=
  let s1 := replaceAll s ['\\', 'n'] ['\n']
  let s2 := replaceAll s1 ['\\', 't'] ['\t']
  let s3 := replaceAll s2 ['\\', 'r'] ['\r']
  let s4 := replaceAll s3 ['\\', '"'] ['"']
  let s5 := replaceAll s4 ['\\', '\\'] ['\\']
  let s6 := replaceAll s5 ['\\', 'b'] ['\x08']
  replaceAll s6 ['\\', 'f'] ['\x0c']

/-- `parse.extractRobustDiffs` (source lines 357-427): for every file-field
match, search forward from the end of the captured path for the next diff
opening, scan escape-aware to the terminating quote, unescape, and collect;
entries whose diff opening or terminating quote is missing are skipped.
No deduplication by file is performed. -/
def extractRobustDiffs (response : List Char) : List FileDiff :=
  (fileFieldMatches response.length response).filterMap fun pr =>
    match searchDiffStart pr.2 with
    | none => none
    | some contentStart =>
      match scanToUnescapedQuote contentStart with
      | none => none
      | some raw => some { file := pr.1, diff := unescapeJSONString raw }

/-- `parse.ParseJSONReviewLenient` (source lines 273-299): when the issue
regex matches at least once, build an issue per match (title and
explanation trimmed) and attach the robustly-extracted diffs; otherwise
report failure. -/
def ParseJSONReviewLenient (response : List Char) : Except Unit JSONReviewResult :=
  let ms := lenientIssueMatches response.length response
  if ms.isEmpty then .error ()
  else
    .ok { issues := ms.map fun m =>
            { title := trimSpace m.1, explanation := trimSpace m.2,
              diff := [], file := [] },
          diffs := extractRobustDiffs response }

/-- The lenient fallback step of `ParseJSONReview` (source lines 262-269):
accept the lenient result only when it carries at least one issue. -/
def lenientOrFail (cleaned : List Char) : Except Unit JSONReviewResult :=
  match ParseJSONReviewLenient cleaned with
  | .ok l => if l.issues.length > 0 then .ok l else .error ()
  | .error _ => .error ()

/-- `parse.ParseJSONReview` (source lines 232-270): empty input yields an
empty result; otherwise strip think tags, clean, preprocess, and accept the
strict decode only when it yields at least one issue, falling back to
lenient extraction on the cleaned (not preprocessed) text. -/
def ParseJSONReview (response : List Char) : Except Unit JSONReviewResult :=
  if response.isEmpty then .ok { issues := [], diffs := [] }
  else
    let cleaned := cleanResponse (RemoveThinkTags response)
    let processed := preprocessSpecialChars cleaned
    match jsonUnmarshalReview processed with
    | some direct =>
      if direct.issues.length > 0 then .ok direct else lenientOrFail cleaned
    | none => lenientOrFail cleaned

/-- `parse.cleanupIssues` (response.go lines 238-258) on one issue: blank
title, explanation and file fields receive their defaults; the diff may
stay empty. -/
def cleanupIssue (i : Issue) : Issue :=
  { i with
    title := if i.title.isEmpty then "Unnamed Issue".data else i.title,
    explanation :=
      if i.explanation.isEmpty then "No explanation provided.".data
      else i.explanation,
    file := if i.file.isEmpty then "General".data else i.file }

/-- `parse.cleanupIssues`. -/
def cleanupIssues (issues : List Issue) : List Issue :=
  issues.map cleanupIssue

/-- The shared tail of both successful branches of `ParseReview`
(response.go lines 136-154): clean up the issues and repackage. -/
def packageResult (r : JSONReviewResult) : ReviewResult :=
  { issues := cleanupIssues r.issues, diffs := r.diffs }

/-- The second stage of `ParseReview` (response.go lines 145-154): retry
with lenient parsing on the raw response. -/
def parseReviewFallback (response : List Char) : ReviewResult :=
  match ParseJSONReviewLenient response with
  | .ok r =>
    if r.issues.length > 0 ∨ r.diffs.length > 0 then packageResult r
    else { issues := [], diffs := [] }
  | .error _ => { issues := [], diffs := [] }

/-- `parse.ParseReview` (response.go lines 129-158): empty input gives the
empty result; a JSON parse carrying at least one issue or diff is cleaned
up and returned; otherwise lenient parsing is retried on the raw response;
when everything fails the result is empty. -/
def ParseReview (response : List Char) : ReviewResult :=
  if response.isEmpty then { issues := [], diffs := [] }
  else
    match ParseJSONReview response with
    | .ok r =>
      if r.issues.length > 0 ∨ r.diffs.length > 0 then packageResult r
      else parseReviewFallback response
    | .error _ => parseReviewFallback response

/-! ### `ReviewResult` accessors (response.go lines 161-235)

A Go method on `*ReviewResult` that may legitimately receive `nil` is
modelled as a function on `Option ReviewResult`, `none` standing for the
nil receiver. -/

/-- `(*ReviewResult).GetIssueCount` (response.go lines 161-166). -/
def getIssueCount : Option ReviewResult → Nat
  | none => 0
  | some r => r.issues.length

/-- `(*ReviewResult).GetDiffCount` (response.go lines 169-174). -/
def getDiffCount : Option ReviewResult → Nat
  | none => 0
  | some r => r.diffs.length

/-- Group issues by their (defaulted) file, preserving first-seen key order
and per-key insertion order.  The source iterates a Go `map`, whose key
order is unspecified; this embedding fixes insertion order as one
determinisation of it. -/
def insertGrouped : List (List Char × List Issue) → List Char → Issue →
    List (List Char × List Issue)
  | [], k, i => [(k, [i])]
  | (k', is) :: rest, k, i =>
    if k' = k then (k', is ++ [i]) :: rest
    else (k', is) :: insertGrouped rest k i

/-- The `issuesByFile` map of `String` (response.go lines 186-195). -/
def groupIssuesByFile (issues : List Issue) : List (List Char × List Issue) :=
  issues.foldl
    (fun acc i =>
      let file := if i.file.isEmpty then "General".data else i.file
      insertGrouped acc file i)
    []

/-- Decimal rendering of a count (`%d`). -/
def natChars (n : Nat) : List Char :=
  Nat.toDigits 10 n

/-- The per-file block of `String` (response.go lines 198-218). -/
def fileIssuesBlock (file : List Char) (issues : List Issue) : List Char :=
  "File: ".data ++ file ++ ['\n'] ++
  "----------------------------------------\n".data ++
  (issues.enum.flatMap fun p =>
    "Issue ".data ++ natChars (p.1 + 1) ++ ": ".data ++ p.2.title ++ ['\n'] ++
    "Explanation: ".data ++ p.2.explanation ++ "\n\n".data) ++
  (issues.flatMap fun i =>
    if i.diff.isEmpty then []
    else
      "Suggested changes:\n".data ++ "```diff\n".data ++ i.diff ++
      "\n```\n\n".data) ++
  ['\n']

/-- The consolidated-diffs block of `String` (response.go lines 221-232). -/
def consolidatedDiffsBlock (diffs : List FileDiff) : List Char :=
  if diffs.isEmpty then []
  else
    "\nConsolidated diffs by file:\n".data ++
    "========================================\n\n".data ++
    diffs.flatMap fun d =>
      "File: ".data ++ d.file ++ ['\n'] ++
      "----------------------------------------\n".data ++
      "```diff\n".data ++ d.diff ++ "\n```\n\n".data

/-- `(*ReviewResult).String` (response.go lines 177-235): a nil receiver or
a result with no issues and no diffs renders as "No issues found."; the
issue blocks are grouped by file (insertion-ordered here, see
`insertGrouped`), followed by the consolidated diffs. -/
def reviewResultString : Option ReviewResult → List Char
  | none => "No issues found.".data
  | some r =>
    if r.issues.isEmpty ∧ r.diffs.isEmpty then "No issues found.".data
    else
      "Found ".data ++ natChars r.issues.length ++ " issues:\n\n".data ++
      ((groupIssuesByFile r.issues).flatMap fun g =>
        fileIssuesBlock g.1 g.2) ++
      consolidatedDiffsBlock r.diffs

/-! ## Concurrent file processor (`pkg/processor`, `ProcessFiles`)

`ProcessFiles` fans one goroutine out per file; each goroutine runs the
per-file processor and then records, under the file's own path, either the
result or the error, in maps guarded by mutexes.  No goroutine writes any
other file's key, and the caller reads the maps only after the final join,
so the final map contents are interleaving-independent; the embedding
therefore computes them by a fold over the file list.  The semaphore and
progress tracker affect timing and logging only, and the run-scoped
context of the claimed scenarios is never cancelled, so the
`ctx.Done()` admission branch (source lines 674-686) is not taken. -/

/-- `processor.FileInfo` (source lines 609-613). -/
structure FileInfo where
  path : List Char
  status : List Char := []
  ftype : List Char := []
deriving DecidableEq, Repr

/-- Final contents of the `results` and `errors` maps of
`ConcurrentProcessor.ProcessFiles` (source lines 641-730), as association
lists keyed by path: every file's processor outcome lands in exactly one of
the two maps, under that file's path. -/
def processFiles (proc : FileInfo → Except GoError ReviewResult) :
    List FileInfo → List (List Char × ReviewResult) × List (List Char × GoError)
  | [] => ([], [])
  | f :: rest =>
    let (rs, es) := processFiles proc rest
    match proc f with
    | .ok r => ((f.path, r) :: rs, es)
    | .error e => (rs, (f.path, e) :: es)
/-! ## Specification-side definitions and concrete sample values

`specClaimedLLMRetryable` transcribes the spec's description of the
retryability classifier, to be compared with `IsLLMErrorRetryable`;
`flatLLMRetryable` is the flat description the classifier actually
satisfies.  The remaining definitions are concrete inputs used to
instantiate theorems. -/

/-- The retryability predicate as the specification describes it: true for
context/deadline-exceeded errors, for messages indicating HTTP 429 or any
5xx status, and for messages containing (case-insensitively) one of
"rate limit", "timeout", "connection reset", "server error",
"service unavailable"; false for everything else. -/
def specClaimedLLMRetryable (e : GoError) : Bool :=
  e.isDeadlineExceeded
  || strContains e.msg "429".data
  || (List.range 100).any (fun i => strContains e.msg (natChars (500 + i)))
  || ["rate limit", "timeout", "connection reset", "server error",
      "service unavailable"].any
       (fun r => strContains (toLowerStr e.msg) r.data)

/-- The flat description of what `IsLLMErrorRetryable` actually accepts:
deadline-exceeded errors, `llm.ErrTimeout` errors, messages containing one
of the digit strings "429", "500", "502", "503", "504", and messages
containing (case-insensitively) one of the substrings "timeout",
"connection reset", "rate limit", "rate_limit", "too many requests",
"server error", "internal server error", "service unavailable". -/
def flatLLMRetryable (e : GoError) : Bool :=
  e.isDeadlineExceeded
  || e.isLLMTimeout
  || ["429", "500", "502", "503", "504"].any
       (fun c => strContains e.msg c.data)
  || ["timeout", "connection reset", "rate limit", "rate_limit",
      "too many requests", "server error", "internal server error",
      "service unavailable"].any
       (fun r => strContains (toLowerStr e.msg) r.data)

/-- A rate-limit error message, retryable under `budgetOpts`. -/
def errRateLimit : GoError := { msg := "rate limit".data }

/-- A message the classifier layers all reject. -/
def errBadRequest : GoError := { msg := "bad request".data }

/-- A 501 response message: a 5xx status the source does not recognise. -/
def err501 : GoError := { msg := "received status code 501".data }

/-- A "too many requests" message: accepted by the source through
`DefaultLLMRetryableErrors`. -/
def errTooMany : GoError := { msg := "too many requests".data }

/-- An operation failing with `errRateLimit` on every attempt. -/
def alwaysFailOp : Nat → Unit × Option GoError :=
  fun _ => ((), some errRateLimit)

/-- An operation failing with `errBadRequest` on every attempt. -/
def badRequestOp : Nat → Unit × Option GoError :=
  fun _ => ((), some errBadRequest)

/-- A retry policy with budget 2 and substring classification. -/
def budgetOpts : Options :=
  { maxRetries := 2, initialDelay := 1, maxDelay := 5, backoffFactor := 2,
    jitterFactor := 0, retryableErrors := ["rate limit".data] }

/-- A backoff policy whose delays 1, 2, 4, 5, 5, ... exercise the cap. -/
def backoffOpts : Options :=
  { maxRetries := 3, initialDelay := 1, maxDelay := 5, backoffFactor := 2,
    jitterFactor := 0, retryableErrors := ["rate limit".data] }

/-- The same policy with a zero initial delay. -/
def zeroInitialOpts : Options :=
  { backoffOpts with maxRetries := 2, initialDelay := 0 }

/-- A policy whose first multiplicative increment is below one nanosecond:
initial delay 1ns, growth factor 3/2, so the truncated product stalls at 1. -/
def stallOpts : Options :=
  { backoffOpts with maxRetries := 2, initialDelay := 1, backoffFactor := 3 / 2 }

/-- A degenerate randomness oracle (unused when jitter is zero). -/
def rnd0 : Nat → ℚ := fun _ => 0

/-- A response whose strict decode carries zero issues and one diff. -/
def zeroIssueDiffResponse : List Char :=
  "\x7b\"issues\":[],\"diffs\":[\x7b\"file\":\"a.go\",\"diff\":\"x\"\x7d]\x7d".data

/-- A response with one issue and two diffs for the same file. -/
def dupDiffResponse : List Char :=
  "\x7b\"issues\":[\x7b\"title\":\"t\",\"explanation\":\"e\"\x7d],\"diffs\":[\x7b\"file\":\"a\",\"diff\":\"1\"\x7d,\x7b\"file\":\"a\",\"diff\":\"2\"\x7d]\x7d".data

/-- The decode of `dupDiffResponse`. -/
def dupDiffDecoded : JSONReviewResult :=
  { issues := [{ title := ['t'], explanation := ['e'], diff := [], file := [] }],
    diffs := [{ file := ['a'], diff := ['1'] },
              { file := ['a'], diff := ['2'] }] }

/-- A response with one issue and one diff. -/
def oneIssueOneDiffResponse : List Char :=
  "\x7b\"issues\":[\x7b\"title\":\"t\",\"explanation\":\"e\"\x7d],\"diffs\":[\x7b\"file\":\"b\",\"diff\":\"d\"\x7d]\x7d".data

/-- A response carrying a single issue with no file field. -/
def soloIssueResponse : List Char :=
  "\x7b\"issues\":[\x7b\"title\":\"t\",\"explanation\":\"e\"\x7d]\x7d".data

/-- Two files with distinct paths. -/
def fileA : FileInfo := { path := ['a'] }

/-- See `fileA`. -/
def fileB : FileInfo := { path := ['b'] }

/-- A per-file processor failing exactly on `fileA`. -/
def procOneFail : FileInfo → Except GoError ReviewResult :=
  fun f =>
    if f.path = ['a'] then .error { msg := "boom".data }
    else .ok { issues := [], diffs := [] }

/-- A transport response with HTTP status 429. -/
def resp429 : HTTPResponse := { statusCode := 429 }

/-! ## Theorems: retry executor -/

/-- Helper: when every attempt fails with a retryable error, `doAux`
reaches the end of the budget and returns the last attempt's error and the
full invocation count. -/
theorem doAux_always_fail {α : Type} (fn : Nat → α × Option GoError)
    (opts : Options) (rnd : Nat → ℚ) (o : Nat → α) (e : Nat → GoError)
    (hfn : ∀ k, fn k = (o k, some (e k)))
    (hret : ∀ k, isRetryableOpts (e k) opts = true) :
    ∀ rem attempt delay,
      (doAux fn opts rnd rem attempt delay).1 = Except.error (e (attempt + rem)) ∧
      (doAux fn opts rnd rem attempt delay).2.1 = attempt + rem + 1 := by
  intro rem
  induction rem with
  | zero =>
    intro attempt delay
    simp [doAux, hfn attempt, hret attempt]
  | succ n ih =>
    intro attempt delay
    rcases hEq : doAux fn opts rnd n (attempt + 1)
        (applyJitter opts (rnd attempt) (nextDelay opts attempt delay)) with ⟨r, nn, ds⟩
    have h1 := ih (attempt + 1) (applyJitter opts (rnd attempt) (nextDelay opts attempt delay))
    rw [hEq] at h1
    simp only [doAux, hfn attempt, hEq]
    rw [if_neg (by simp [hret attempt])]
    constructor
    · have hr : r = Except.error (e (attempt + 1 + n)) := h1.1
      rw [(by omega : attempt + (n + 1) = attempt + 1 + n)]
      exact hr
    · have hn : nn = attempt + 1 + n + 1 := h1.2
      rw [(by omega : attempt + (n + 1) + 1 = attempt + 1 + n + 1)]
      exact hn

/-- C3: a retry policy with any budget `maxRetries`, running an operation
that fails on every attempt with an error the configured classifier calls
retryable, invokes the operation exactly `maxRetries + 1` times and returns
the final attempt's error unmodified. -/
theorem retry_do_budget {α : Type} (opts : Options)
    (fn : Nat → α × Option GoError) (o : Nat → α) (e : Nat → GoError)
    (rnd : Nat → ℚ)
    (hfn : ∀ k, fn k = (o k, some (e k)))
    (hret : ∀ k, isRetryableOpts (e k) opts = true) :
    (retryDo fn opts rnd).1 = Except.error (e opts.maxRetries) ∧
    (retryDo fn opts rnd).2.1 = opts.maxRetries + 1 := by
  have h := doAux_always_fail fn opts rnd o e hfn hret opts.maxRetries 0 0
  simpa [retryDo] using h

/-- Witness for `retry_do_budget`: with budget 2 and a constant rate-limit
failure, the executor makes 3 invocations and surfaces the original error. -/
theorem retry_do_budget_witness :
    (retryDo alwaysFailOp budgetOpts rnd0).1 = Except.error errRateLimit ∧
    (retryDo alwaysFailOp budgetOpts rnd0).2.1 = 2 + 1 := by
  have hcls : isRetryableOpts errRateLimit budgetOpts = true := by decide
  exact retry_do_budget budgetOpts alwaysFailOp (fun _ => ())
    (fun _ => errRateLimit) rnd0 (fun _ => rfl) (fun _ => hcls)

/-- C8: an operation whose first failure the configured classifier calls
non-retryable is invoked exactly once; the executor returns that error
immediately with no backoff sleep. -/
theorem retry_do_non_retryable_once {α : Type} (opts : Options)
    (fn : Nat → α × Option GoError) (x : α) (e : GoError) (rnd : Nat → ℚ)
    (hfn : fn 0 = (x, some e))
    (hret : isRetryableOpts e opts = false) :
    retryDo fn opts rnd = (Except.error e, 1, []) := by
  simp [retryDo, doAux, hfn, hret]

/-- Witness for `retry_do_non_retryable_once`. -/
theorem retry_do_non_retryable_once_witness :
    retryDo badRequestOp budgetOpts rnd0 = (Except.error errBadRequest, 1, []) :=
  retry_do_non_retryable_once budgetOpts badRequestOp () errBadRequest rnd0
    rfl (by decide)

/-- Helper: `truncQ` of a non-negative rational is its floor. -/
theorem truncQ_eq_floor (q : ℚ) (h : 0 ≤ q) : truncQ q = ⌊q⌋ :=
  if_pos h

/-- Helper: the delay sequence stays between the initial delay and the
cap.  The multiplicative step cannot decrease an integral delay: for
`d ≥ 0` and `F ≥ 1` the truncated product `⌊d·F⌋` is still `≥ d`. -/
theorem delaySeq_bounds (I M : ℤ) (F : ℚ) (hI : 0 < I) (hIM : I ≤ M)
    (hF : 1 < F) :
    ∀ k, I ≤ delaySeq I M F k ∧ delaySeq I M F k ≤ M := by
  intro k
  induction k with
  | zero => exact ⟨le_refl I, hIM⟩
  | succ n ih =>
    obtain ⟨hlb, hub⟩ := ih
    have hd0 : (0 : ℚ) ≤ (delaySeq I M F n : ℚ) := by
      exact_mod_cast le_trans (le_of_lt hI) hlb
    have hprodnn : (0 : ℚ) ≤ (delaySeq I M F n : ℚ) * F :=
      mul_nonneg hd0 (by linarith)
    have hmono : delaySeq I M F n ≤ truncQ ((delaySeq I M F n : ℚ) * F) := by
      rw [truncQ_eq_floor _ hprodnn]
      apply Int.le_floor.mpr
      have h1 : (delaySeq I M F n : ℚ) * 1 ≤ (delaySeq I M F n : ℚ) * F :=
        mul_le_mul_of_nonneg_left (le_of_lt hF) hd0
      simpa using h1
    simp only [delaySeq]
    split
    · exact ⟨hIM, le_refl M⟩
    · rename_i hnc
      exact ⟨le_trans hlb hmono, not_lt.mp hnc⟩

/-- Helper: below the cap the delay sequence strictly increases, provided
the very first multiplicative increment is at least one nanosecond
(`I·(F−1) ≥ 1`); truncation then cannot absorb the growth at any later
delay either, since delays only grow. -/
theorem delaySeq_strict_below_cap (I M : ℤ) (F : ℚ) (hI : 0 < I)
    (hIM : I ≤ M) (hF : 1 < F) (hstep : 1 ≤ (I : ℚ) * (F - 1)) (k : Nat)
    (hk : delaySeq I M F k < M) :
    delaySeq I M F k < delaySeq I M F (k + 1) := by
  obtain ⟨hlb, hub⟩ := delaySeq_bounds I M F hI hIM hF k
  have hd0 : (0 : ℚ) ≤ (delaySeq I M F k : ℚ) := by
    exact_mod_cast le_trans (le_of_lt hI) hlb
  have hprodnn : (0 : ℚ) ≤ (delaySeq I M F k : ℚ) * F :=
    mul_nonneg hd0 (by linarith)
  have hstep2 : (I : ℚ) * (F - 1) ≤ (delaySeq I M F k : ℚ) * (F - 1) := by
    apply mul_le_mul_of_nonneg_right _ (by linarith)
    exact_mod_cast hlb
  have hprod : (delaySeq I M F k : ℚ) + 1 ≤ (delaySeq I M F k : ℚ) * F := by
    nlinarith
  have hge : delaySeq I M F k + 1 ≤ truncQ ((delaySeq I M F k : ℚ) * F) := by
    rw [truncQ_eq_floor _ hprodnn]
    apply Int.le_floor.mpr
    push_cast
    exact hprod
  simp only [delaySeq]
  split
  · exact hk
  · omega

/-- Helper: once the cap is reached every later delay equals it. -/
theorem delaySeq_cap_stable (I M : ℤ) (F : ℚ) (hI : 0 < I) (hIM : I ≤ M)
    (hF : 1 < F) (k : Nat) (hk : delaySeq I M F k = M) :
    delaySeq I M F (k + 1) = M := by
  have hM0 : (0 : ℚ) ≤ (M : ℚ) := by
    exact_mod_cast le_trans (le_of_lt hI) hIM
  have hge : M ≤ truncQ ((M : ℚ) * F) := by
    rw [truncQ_eq_floor _ (mul_nonneg hM0 (by linarith))]
    apply Int.le_floor.mpr
    nlinarith
  simp only [delaySeq, hk]
  split
  · rfl
  · rename_i hnc
    omega

/-- Helper: from retry `j + 1` onwards, with the loop delay holding
`delaySeq j`, the delays slept by `doAux` follow `delaySeq` (no jitter). -/
theorem doAux_sleeps_from {α : Type} (fn : Nat → α × Option GoError)
    (opts : Options) (rnd : Nat → ℚ) (o : Nat → α) (e : Nat → GoError)
    (hfn : ∀ k, fn k = (o k, some (e k)))
    (hret : ∀ k, isRetryableOpts (e k) opts = true)
    (hj : opts.jitterFactor = 0) :
    ∀ rem j,
      (doAux fn opts rnd rem (j + 1)
          (delaySeq opts.initialDelay opts.maxDelay opts.backoffFactor j)).2.2
        = (List.range rem).map
            (fun i => delaySeq opts.initialDelay opts.maxDelay opts.backoffFactor (j + 1 + i)) := by
  intro rem
  induction rem with
  | zero =>
    intro j
    simp [doAux, hfn, hret]
  | succ n ih =>
    intro j
    have hd : nextDelay opts (j + 1)
        (delaySeq opts.initialDelay opts.maxDelay opts.backoffFactor j)
        = delaySeq opts.initialDelay opts.maxDelay opts.backoffFactor (j + 1) := by
      simp [nextDelay, delaySeq]
    have hjit : ∀ q d, applyJitter opts q d = d := by
      intro q d
      simp [applyJitter, hj]
    rcases hEq : doAux fn opts rnd n (j + 1 + 1)
        (delaySeq opts.initialDelay opts.maxDelay opts.backoffFactor (j + 1)) with ⟨r, nn, ds⟩
    have h1 := ih (j + 1)
    rw [hEq] at h1
    have hds : ds = (List.range n).map
        (fun i => delaySeq opts.initialDelay opts.maxDelay opts.backoffFactor (j + 1 + 1 + i)) := h1
    simp only [doAux, hfn (j + 1), hd, hjit, hEq]
    rw [if_neg (by simp [hret (j + 1)])]
    show delaySeq opts.initialDelay opts.maxDelay opts.backoffFactor (j + 1) :: ds
        = (List.range (n + 1)).map
            (fun i => delaySeq opts.initialDelay opts.maxDelay opts.backoffFactor (j + 1 + i))
    rw [hds, List.range_succ_eq_map, List.map_cons, List.map_map]
    congr 1
    apply List.map_congr_left
    intro i _
    show delaySeq opts.initialDelay opts.maxDelay opts.backoffFactor (j + 1 + 1 + i)
        = delaySeq opts.initialDelay opts.maxDelay opts.backoffFactor (j + 1 + (i + 1))
    congr 1
    omega

/-- Helper: on an always-failing retryable run with no jitter, the delays
slept by the executor are exactly `delaySeq 0, …, delaySeq (maxRetries-1)`. -/
theorem retryDo_sleeps {α : Type} (fn : Nat → α × Option GoError)
    (opts : Options) (rnd : Nat → ℚ) (o : Nat → α) (e : Nat → GoError)
    (hfn : ∀ k, fn k = (o k, some (e k)))
    (hret : ∀ k, isRetryableOpts (e k) opts = true)
    (hj : opts.jitterFactor = 0) :
    (retryDo fn opts rnd).2.2
      = (List.range opts.maxRetries).map
          (delaySeq opts.initialDelay opts.maxDelay opts.backoffFactor) := by
  unfold retryDo
  rcases hm : opts.maxRetries with _ | n
  · simp [doAux, hfn, hret]
  · have hd0 : nextDelay opts 0 0
        = delaySeq opts.initialDelay opts.maxDelay opts.backoffFactor 0 := by
      simp [nextDelay, delaySeq]
    have hjit : ∀ q d, applyJitter opts q d = d := by
      intro q d
      simp [applyJitter, hj]
    rcases hEq : doAux fn opts rnd n (0 + 1)
        (delaySeq opts.initialDelay opts.maxDelay opts.backoffFactor 0) with ⟨r, nn, ds⟩
    have h1 := doAux_sleeps_from fn opts rnd o e hfn hret hj n 0
    rw [hEq] at h1
    have hds : ds = (List.range n).map
        (fun i => delaySeq opts.initialDelay opts.maxDelay opts.backoffFactor (0 + 1 + i)) := h1
    simp only [doAux, hfn 0, hd0, hjit, hEq]
    rw [if_neg (by simp [hret 0])]
    show delaySeq opts.initialDelay opts.maxDelay opts.backoffFactor 0 :: ds
        = (List.range (n + 1)).map
            (delaySeq opts.initialDelay opts.maxDelay opts.backoffFactor)
    rw [hds, List.range_succ_eq_map, List.map_cons, List.map_map]
    congr 1
    apply List.map_congr_left
    intro i _
    show delaySeq opts.initialDelay opts.maxDelay opts.backoffFactor (0 + 1 + i)
        = delaySeq opts.initialDelay opts.maxDelay opts.backoffFactor (i + 1)
    congr 1
    omega

/-- C4 (amended; the original claim needs two more hypotheses:
`0 < initialDelay`, without which the delay sequence is constant at 0, and
`initialDelay · (backoffFactor − 1) ≥ 1`, i.e. the first multiplicative
increment is at least one nanosecond — otherwise the truncation of the
`float64` product back to whole nanoseconds stalls the sequence below the
cap, as with a 1ns initial delay and factor 3/2): with no jitter, a growth
factor above 1, `0 < initialDelay ≤ maxDelay` and a first increment of at
least one nanosecond, the delays the executor sleeps on an always-failing
retryable run are exactly the sequence `delaySeq`, which is strictly
increasing while below `maxDelay` and constantly equal to `maxDelay` once
it reaches it. -/
theorem backoff_monotone_amended {α : Type} (opts : Options)
    (fn : Nat → α × Option GoError) (o : Nat → α) (e : Nat → GoError)
    (rnd : Nat → ℚ)
    (hfn : ∀ k, fn k = (o k, some (e k)))
    (hret : ∀ k, isRetryableOpts (e k) opts = true)
    (hj : opts.jitterFactor = 0) (hF : 1 < opts.backoffFactor)
    (hI : 0 < opts.initialDelay) (hIM : opts.initialDelay ≤ opts.maxDelay)
    (hstep : 1 ≤ (opts.initialDelay : ℚ) * (opts.backoffFactor - 1)) :
    (retryDo fn opts rnd).2.2
      = (List.range opts.maxRetries).map
          (delaySeq opts.initialDelay opts.maxDelay opts.backoffFactor) ∧
    (∀ k, delaySeq opts.initialDelay opts.maxDelay opts.backoffFactor k < opts.maxDelay →
        delaySeq opts.initialDelay opts.maxDelay opts.backoffFactor k
          < delaySeq opts.initialDelay opts.maxDelay opts.backoffFactor (k + 1)) ∧
    (∀ k, delaySeq opts.initialDelay opts.maxDelay opts.backoffFactor k = opts.maxDelay →
        delaySeq opts.initialDelay opts.maxDelay opts.backoffFactor (k + 1) = opts.maxDelay) :=
  ⟨retryDo_sleeps fn opts rnd o e hfn hret hj,
   fun k hk => delaySeq_strict_below_cap _ _ _ hI hIM hF hstep k hk,
   fun k hk => delaySeq_cap_stable _ _ _ hI hIM hF k hk⟩

/-- Witness for `backoff_monotone_amended`: under `backoffOpts` the slept
delays are the `delaySeq` prefix of length 3 (concretely 1, 2, 4). -/
theorem backoff_monotone_witness :
    (retryDo alwaysFailOp backoffOpts rnd0).2.2
      = (List.range 3).map (delaySeq 1 5 2) := by
  have hcls : isRetryableOpts errRateLimit backoffOpts = true := by decide
  exact (backoff_monotone_amended backoffOpts alwaysFailOp (fun _ => ())
    (fun _ => errRateLimit) rnd0 (fun _ => rfl) (fun _ => hcls)
    rfl (by norm_num [backoffOpts]) (by norm_num [backoffOpts])
    (by norm_num [backoffOpts]) (by norm_num [backoffOpts])).1

/-- C4 counterexample: two runs inside the claim's hypotheses exactly as
stated (jitterFactor = 0, backoffFactor > 1, initialDelay ≤ maxDelay = 5)
where successive executor delays are equal while strictly below the cap,
so the delay sequence is not strictly increasing up to `maxDelay`: with
initialDelay = 0 and factor 2 the delays slept are 0, 0; and with the
positive initialDelay 1 (one nanosecond) and factor 3/2 the truncation of
`time.Duration(float64(delay) * 1.5)` stalls, the delays slept being 1, 1. -/
theorem backoff_monotone_counterexample :
    (retryDo alwaysFailOp zeroInitialOpts rnd0).2.2 = [0, 0] ∧
    (retryDo alwaysFailOp stallOpts rnd0).2.2 = [1, 1] ∧
    delaySeq 1 5 (3 / 2) 0 = 1 ∧ delaySeq 1 5 (3 / 2) 1 = 1 ∧
    (1 : ℤ) < 5 := by
  have hz : truncQ (((0 : ℤ) : ℚ) * 2) = 0 := by
    rw [truncQ_eq_floor _ (by norm_num)]
    norm_num
  have hone : truncQ (((1 : ℤ) : ℚ) * (3 / 2)) = 1 := by
    rw [truncQ_eq_floor _ (by norm_num)]
    rw [Int.floor_eq_iff]
    constructor <;> norm_num
  have hd1 : delaySeq 1 5 (3 / 2) 1 = 1 := by
    simp only [delaySeq, hone]
    norm_num
  refine ⟨?_, ?_, rfl, hd1, by norm_num⟩
  · have hcls : isRetryableOpts errRateLimit zeroInitialOpts = true := by decide
    have h := retryDo_sleeps alwaysFailOp zeroInitialOpts rnd0 (fun _ => ())
        (fun _ => errRateLimit) (fun _ => rfl) (fun _ => hcls) rfl
    rw [h]
    have hdz : delaySeq 0 5 2 1 = 0 := by
      simp only [delaySeq, hz]
      norm_num
    norm_num [zeroInitialOpts, backoffOpts, List.range_succ, hdz,
      (show delaySeq 0 5 2 0 = 0 from rfl)]
  · have hcls : isRetryableOpts errRateLimit stallOpts = true := by decide
    have h := retryDo_sleeps alwaysFailOp stallOpts rnd0 (fun _ => ())
        (fun _ => errRateLimit) (fun _ => rfl) (fun _ => hcls) rfl
    rw [h]
    norm_num [stallOpts, backoffOpts, List.range_succ, hd1,
      (show delaySeq 1 5 (3 / 2) 0 = 1 from rfl)]

/-! ## Theorems: LLM classifier and request wrapper -/

/-- C5 (amended; relative to the claim, "any 5xx status" must be narrowed
to the digit strings 500, 502, 503, 504 — 501 and most other 5xx codes are
not recognised — and the retryable substring list must additionally include
"too many requests" and "rate_limit", plus the `llm.ErrTimeout` identity):
`IsLLMErrorRetryable` accepts exactly the errors described by
`flatLLMRetryable`. -/
theorem llm_classifier_amended (e : GoError) :
    IsLLMErrorRetryable (some e) = flatLLMRetryable e := by
  rw [Bool.eq_iff_iff]
  simp only [IsLLMErrorRetryable, flatLLMRetryable, defaultLLMRetryableErrors,
    List.any_cons, List.any_nil,
    (show toLowerStr "timeout".data = "timeout".data from rfl),
    (show toLowerStr "connection reset".data = "connection reset".data from rfl),
    (show toLowerStr "rate limit".data = "rate limit".data from rfl),
    (show toLowerStr "too many requests".data = "too many requests".data from rfl),
    (show toLowerStr "server error".data = "server error".data from rfl),
    (show toLowerStr "internal server error".data = "internal server error".data from rfl),
    (show toLowerStr "service unavailable".data = "service unavailable".data from rfl)]
  split_ifs with h1 h2 h3 h4 h5 <;> simp_all <;> tauto

/-- C5 counterexample: the message "received status code 501" indicates a
5xx status, so the claim calls it retryable, but the classifier rejects it;
conversely "too many requests" is outside the claim's substring list, but
the classifier accepts it. -/
theorem llm_classifier_counterexample :
    IsLLMErrorRetryable (some err501) = false ∧
    specClaimedLLMRetryable err501 = true ∧
    IsLLMErrorRetryable (some errTooMany) = true ∧
    specClaimedLLMRetryable errTooMany = false := by decide

/-- C6: a transport call returning a response with status 429 is never
treated as a successful attempt: the wrapper replaces it by the synthesized
"rate limit exceeded" error, that error is retryable for the LLM
classifier, and a transport that always answers 429 drives `DoLLMRequest`
to exhaust its budget and return the synthesized error rather than any
success. -/
theorem llm_429_synthesizes_retryable_error (resp : HTTPResponse)
    (err : Option GoError) (h : resp.statusCode = 429) :
    wrapLLMOperation (some resp, err) = (none, some rateLimitExceededErr) ∧
    IsLLMErrorRetryable (some rateLimitExceededErr) = true ∧
    ∀ opts rnd, (DoLLMRequest (fun _ => (some resp, err)) opts rnd).1
        = Except.error rateLimitExceededErr := by
  have hw : wrapLLMOperation (some resp, err) = (none, some rateLimitExceededErr) := by
    simp [wrapLLMOperation, h]
  have hcls : IsLLMErrorRetryable (some rateLimitExceededErr) = true := by decide
  refine ⟨hw, hcls, ?_⟩
  intro opts rnd
  have h2 := doAux_always_fail
    (fun _ => wrapLLMOperation (some resp, err))
    { opts with isRetryableFunc := some (fun e => IsLLMErrorRetryable (some e)) }
    rnd (fun _ => none) (fun _ => rateLimitExceededErr)
    (fun _ => hw) (fun _ => hcls)
    opts.maxRetries 0 0
  simpa [DoLLMRequest, retryDo] using h2.1

/-- Witness for `llm_429_synthesizes_retryable_error` at a concrete 429
response with no transport error. -/
theorem llm_429_witness :
    wrapLLMOperation (some resp429, none) = (none, some rateLimitExceededErr) ∧
    IsLLMErrorRetryable (some rateLimitExceededErr) = true :=
  ⟨(llm_429_synthesizes_retryable_error resp429 none rfl).1,
   (llm_429_synthesizes_retryable_error resp429 none rfl).2.1⟩

/-! ## Theorems: concurrent file processor -/

/-- Helper: a file whose processor fails lands in the error map under its
own path. -/
theorem processFiles_error_mem (proc : FileInfo → Except GoError ReviewResult) :
    ∀ (files : List FileInfo) (f : FileInfo) (e : GoError),
      f ∈ files → proc f = .error e →
      (f.path, e) ∈ (processFiles proc files).2 := by
  intro files
  induction files with
  | nil =>
    intro f e hf _
    simp at hf
  | cons g rest ih =>
    intro f e hf hpe
    rcases hP : processFiles proc rest with ⟨rs, es⟩
    rcases List.mem_cons.mp hf with hfg | hfr
    · subst hfg
      simp [processFiles, hP, hpe]
    · have hm := ih f e hfr hpe
      rw [hP] at hm
      cases hpg : proc g with
      | ok r => simpa [processFiles, hP, hpg] using hm
      | error e2 =>
        simp only [processFiles, hP, hpg]
        exact List.mem_cons_of_mem _ hm

/-- Helper: a file whose processor succeeds lands in the result map under
its own path. -/
theorem processFiles_ok_mem (proc : FileInfo → Except GoError ReviewResult) :
    ∀ (files : List FileInfo) (f : FileInfo) (r : ReviewResult),
      f ∈ files → proc f = .ok r →
      (f.path, r) ∈ (processFiles proc files).1 := by
  intro files
  induction files with
  | nil =>
    intro f r hf _
    simp at hf
  | cons g rest ih =>
    intro f r hf hpr
    rcases hP : processFiles proc rest with ⟨rs, es⟩
    rcases List.mem_cons.mp hf with hfg | hfr
    · subst hfg
      simp [processFiles, hP, hpr]
    · have hm := ih f r hfr hpr
      rw [hP] at hm
      cases hpg : proc g with
      | error e2 => simpa [processFiles, hP, hpg] using hm
      | ok r2 =>
        simp only [processFiles, hP, hpg]
        exact List.mem_cons_of_mem _ hm

/-- Helper: every key of the result map comes from a file whose processor
succeeded. -/
theorem processFiles_key_ok (proc : FileInfo → Except GoError ReviewResult) :
    ∀ (files : List FileInfo) (p : List Char),
      p ∈ (processFiles proc files).1.map Prod.fst →
      ∃ f, f ∈ files ∧ f.path = p ∧ (proc f).isOk = true := by
  intro files
  induction files with
  | nil =>
    intro p hp
    simp [processFiles] at hp
  | cons g rest ih =>
    intro p hp
    rcases hP : processFiles proc rest with ⟨rs, es⟩
    rw [hP] at ih
    cases hpg : proc g with
    | ok r =>
      rw [processFiles, hP] at hp
      simp only [hpg, List.map_cons, List.mem_cons] at hp
      rcases hp with hp | hp
      · refine ⟨g, List.mem_cons_self g rest, hp.symm, ?_⟩
        simp [hpg, Except.isOk, Except.toBool]
      · obtain ⟨f, hf, hfp, hok⟩ := ih p hp
        exact ⟨f, List.mem_cons_of_mem g hf, hfp, hok⟩
    | error e =>
      rw [processFiles, hP] at hp
      simp only [hpg] at hp
      obtain ⟨f, hf, hfp, hok⟩ := ih p hp
      exact ⟨f, List.mem_cons_of_mem g hf, hfp, hok⟩

/-- Helper: when every file's processor succeeds, there are no errors and
one result per file. -/
theorem processFiles_all_ok (proc : FileInfo → Except GoError ReviewResult) :
    ∀ files : List FileInfo,
      (∀ f ∈ files, (proc f).isOk = true) →
      (processFiles proc files).1.length = files.length ∧
      (processFiles proc files).2 = [] := by
  intro files
  induction files with
  | nil => simp [processFiles]
  | cons g rest ih =>
    intro hok
    rcases hP : processFiles proc rest with ⟨rs, es⟩
    have ihr := ih (fun f hf => hok f (List.mem_cons_of_mem g hf))
    rw [hP] at ihr
    cases hpg : proc g with
    | ok r => simpa [processFiles, hP, hpg] using ihr
    | error e =>
      exfalso
      have hg := hok g (List.mem_cons_self g rest)
      rw [hpg] at hg
      simp [Except.isOk, Except.toBool] at hg

/-- Helper: with pairwise-distinct paths and exactly one failing file, the
final maps hold one error and one result per remaining file. -/
theorem processFiles_one_fail (proc : FileInfo → Except GoError ReviewResult) :
    ∀ (files : List FileInfo) (f0 : FileInfo),
      (files.map FileInfo.path).Nodup → f0 ∈ files → (proc f0).isOk = false →
      (∀ f ∈ files, f.path ≠ f0.path → (proc f).isOk = true) →
      (processFiles proc files).1.length = files.length - 1 ∧
      (processFiles proc files).2.length = 1 := by
  intro files
  induction files with
  | nil =>
    intro f0 _ hf0 _ _
    simp at hf0
  | cons g rest ih =>
    intro f0 hnd hf0 hfail hrest
    rcases hP : processFiles proc rest with ⟨rs, es⟩
    rcases List.mem_cons.mp hf0 with hfg | hfr
    · subst hfg
      have hallok : ∀ f ∈ rest, (proc f).isOk = true := by
        intro f hf
        refine hrest f (List.mem_cons_of_mem f0 hf) ?_
        intro hpeq
        have hmem : f.path ∈ rest.map FileInfo.path :=
          List.mem_map_of_mem FileInfo.path hf
        rw [hpeq] at hmem
        exact (List.nodup_cons.mp hnd).1 hmem
      have hro := processFiles_all_ok proc rest hallok
      rw [hP] at hro
      have h1 : rs.length = rest.length := hro.1
      have h2 : es = [] := hro.2
      cases hpg : proc f0 with
      | ok r =>
        rw [hpg] at hfail
        simp [Except.isOk, Except.toBool] at hfail
      | error e =>
        subst h2
        constructor
        · simp only [processFiles, hP, hpg, List.length_cons]
          omega
        · simp [processFiles, hP, hpg]
    · have hgp : g.path ≠ f0.path := by
        intro hpeq
        have hmem : f0.path ∈ rest.map FileInfo.path :=
          List.mem_map_of_mem FileInfo.path hfr
        rw [← hpeq] at hmem
        exact (List.nodup_cons.mp hnd).1 hmem
      have hgok : (proc g).isOk = true :=
        hrest g (List.mem_cons_self g rest) hgp
      have ihr := ih f0 (List.nodup_cons.mp hnd).2 hfr hfail
        (fun f hf hne => hrest f (List.mem_cons_of_mem g hf) hne)
      rw [hP] at ihr
      have h1 : rs.length = rest.length - 1 := ihr.1
      have h2 : es.length = 1 := ihr.2
      cases hpg : proc g with
      | error e =>
        rw [hpg] at hgok
        simp [Except.isOk, Except.toBool] at hgok
      | ok r =>
        have hlen : rest.length ≥ 1 := by
          cases rest with
          | nil => simp at hfr
          | cons a b => simp
        constructor
        · simp only [processFiles, hP, hpg, List.length_cons]
          omega
        · simp only [processFiles, hP, hpg]
          exact h2

/-- C7: after a run over files with pairwise-distinct paths, a file whose
processor failed appears under its path in the error map and not in the
result map, every file whose processor succeeded appears in the result map,
and when exactly one file always fails the aggregate holds
`len(files) - 1` successes and exactly one error. -/
theorem concurrent_process_failure_isolation
    (proc : FileInfo → Except GoError ReviewResult) (files : List FileInfo)
    (hnd : (files.map FileInfo.path).Nodup) :
    (∀ f ∈ files, ∀ e, proc f = .error e →
        (f.path, e) ∈ (processFiles proc files).2 ∧
        f.path ∉ (processFiles proc files).1.map Prod.fst) ∧
    (∀ f ∈ files, ∀ r, proc f = .ok r →
        (f.path, r) ∈ (processFiles proc files).1) ∧
    (∀ f0 ∈ files, (proc f0).isOk = false →
        (∀ f ∈ files, f.path ≠ f0.path → (proc f).isOk = true) →
        (processFiles proc files).1.length = files.length - 1 ∧
        (processFiles proc files).2.length = 1) := by
  refine ⟨?_, ?_, ?_⟩
  · intro f hf e hpe
    refine ⟨processFiles_error_mem proc files f e hf hpe, ?_⟩
    intro hkey
    obtain ⟨f2, hf2, hf2p, hok⟩ := processFiles_key_ok proc files f.path hkey
    have hff : f2 = f := List.inj_on_of_nodup_map hnd hf2 hf hf2p
    rw [hff, hpe] at hok
    simp [Except.isOk, Except.toBool] at hok
  · intro f hf r hpr
    exact processFiles_ok_mem proc files f r hf hpr
  · intro f0 hf0 hfail hrest
    exact processFiles_one_fail proc files f0 hnd hf0 hfail hrest

/-- Witness for `concurrent_process_failure_isolation`: two files, the
first always failing, give one success and one error. -/
theorem concurrent_process_failure_isolation_witness :
    (processFiles procOneFail [fileA, fileB]).1.length = 2 - 1 ∧
    (processFiles procOneFail [fileA, fileB]).2.length = 1 :=
  (concurrent_process_failure_isolation procOneFail [fileA, fileB]
      (by decide)).2.2 fileA (by decide) (by decide) (by decide)

/-! ## Theorems: resilient response parser -/

/-- Helper: `cleanupIssue` leaves no blank title, explanation or file. -/
theorem cleanupIssue_nonblank (i : Issue) :
    (cleanupIssue i).title ≠ [] ∧ (cleanupIssue i).explanation ≠ [] ∧
    (cleanupIssue i).file ≠ [] := by
  unfold cleanupIssue
  refine ⟨?_, ?_, ?_⟩
  · show (if i.title.isEmpty = true then "Unnamed Issue".data else i.title) ≠ []
    split
    next => decide
    next h =>
      intro hn
      exact h (by simp [hn])
  · show (if i.explanation.isEmpty = true then "No explanation provided.".data
        else i.explanation) ≠ []
    split
    next => decide
    next h =>
      intro hn
      exact h (by simp [hn])
  · show (if i.file.isEmpty = true then "General".data else i.file) ≠ []
    split
    next => decide
    next h =>
      intro hn
      exact h (by simp [hn])

/-- Helper: `ParseReview` returns either the empty result or a cleaned-up
packaging of some parse result. -/
theorem parseReview_shape (s : List Char) :
    ParseReview s = { issues := [], diffs := [] } ∨
    ∃ r, ParseReview s = packageResult r := by
  by_cases hs : s.isEmpty = true
  · left
    simp [ParseReview, hs]
  · cases hp : ParseJSONReview s with
    | ok r =>
      by_cases hnz : r.issues.length > 0 ∨ r.diffs.length > 0
      · right
        exact ⟨r, by simp [ParseReview, hs, hp, hnz]⟩
      · cases hl : ParseJSONReviewLenient s with
        | ok r2 =>
          by_cases hnz2 : r2.issues.length > 0 ∨ r2.diffs.length > 0
          · right
            exact ⟨r2, by simp [ParseReview, parseReviewFallback, hs, hp, hnz, hl, hnz2]⟩
          · left
            simp [ParseReview, parseReviewFallback, hs, hp, hnz, hl, hnz2]
        | error u =>
          left
          simp [ParseReview, parseReviewFallback, hs, hp, hnz, hl]
    | error u =>
      cases hl : ParseJSONReviewLenient s with
      | ok r2 =>
        by_cases hnz2 : r2.issues.length > 0 ∨ r2.diffs.length > 0
        · right
          exact ⟨r2, by simp [ParseReview, parseReviewFallback, hs, hp, hl, hnz2]⟩
        · left
          simp [ParseReview, parseReviewFallback, hs, hp, hl, hnz2]
      | error u2 =>
        left
        simp [ParseReview, parseReviewFallback, hs, hp, hl]

/-- C9: every issue in a `ParseReview` result, whatever stage produced it,
has a non-empty title, explanation and file. -/
theorem parsed_issues_normalized (s : List Char) :
    ∀ i ∈ (ParseReview s).issues,
      i.title ≠ [] ∧ i.explanation ≠ [] ∧ i.file ≠ [] := by
  intro i hi
  rcases parseReview_shape s with h | ⟨r, h⟩
  · rw [h] at hi
    simp at hi
  · rw [h] at hi
    simp only [packageResult, cleanupIssues, List.mem_map] at hi
    obtain ⟨j, _, rfl⟩ := hi
    exact cleanupIssue_nonblank j

set_option maxRecDepth 1000000 in
/-- Witness for `parsed_issues_normalized` on a response whose single issue
omits the file field: the parsed issue carries the defaults. -/
theorem parsed_issues_normalized_witness :
    (⟨"t".data, "e".data, [], "General".data⟩ : Issue)
        ∈ (ParseReview soloIssueResponse).issues ∧
    ("t".data ≠ ([] : List Char) ∧ "e".data ≠ ([] : List Char) ∧
      "General".data ≠ ([] : List Char)) :=
  ⟨by decide, parsed_issues_normalized soloIssueResponse ⟨"t".data, "e".data, [], "General".data⟩ (by decide)⟩

/-- C10: the `ReviewResult` accessors are total on a nil receiver:
`GetIssueCount` and `GetDiffCount` return 0 and `String` renders
"No issues found.". -/
theorem nil_receiver_accessors_total :
    getIssueCount none = 0 ∧ getDiffCount none = 0 ∧
    reviewResultString none = "No issues found.".data :=
  ⟨rfl, rfl, rfl⟩

/-- Helper: a successful lenient parse always carries at least one issue. -/
theorem lenient_ok_issues_nonempty (s : List Char) (r : JSONReviewResult)
    (h : ParseJSONReviewLenient s = .ok r) : r.issues ≠ [] := by
  unfold ParseJSONReviewLenient at h
  cases hms : lenientIssueMatches s.length s with
  | nil => simp [hms] at h
  | cons m ms =>
    rw [hms] at h
    simp only [List.isEmpty_cons, Bool.false_eq_true, if_false] at h
    injection h with hr
    rw [← hr]
    simp

/-- Helper: the lenient fallback of `ParseJSONReview` succeeds only with at
least one issue. -/
theorem lenientOrFail_ok_issues (c : List Char) (r : JSONReviewResult)
    (h : lenientOrFail c = .ok r) : r.issues ≠ [] := by
  unfold lenientOrFail at h
  cases hl : ParseJSONReviewLenient c with
  | ok l =>
    simp only [hl] at h
    by_cases hn : l.issues.length > 0
    · rw [if_pos hn] at h
      injection h with hr
      rw [← hr]
      exact List.length_pos.mp hn
    · rw [if_neg hn] at h
      simp at h
  | error u =>
    simp only [hl] at h
    simp at h

/-- Helper: a successful `ParseJSONReview` either carries an issue or
carries no diffs (the empty-input case). -/
theorem parseJSONReview_ok_inv (s : List Char) (r : JSONReviewResult)
    (h : ParseJSONReview s = .ok r) : r.issues ≠ [] ∨ r.diffs = [] := by
  unfold ParseJSONReview at h
  by_cases hs : s.isEmpty = true
  · rw [if_pos hs] at h
    injection h with hr
    rw [← hr]
    right
    rfl
  · rw [if_neg hs] at h
    cases hd : jsonUnmarshalReview (preprocessSpecialChars
        (cleanResponse (RemoveThinkTags s))) with
    | some direct =>
      simp only [hd] at h
      by_cases hn : direct.issues.length > 0
      · rw [if_pos hn] at h
        injection h with hr
        rw [← hr]
        exact Or.inl (List.length_pos.mp hn)
      · rw [if_neg hn] at h
        exact Or.inl (lenientOrFail_ok_issues _ r h)
    | none =>
      simp only [hd] at h
      exact Or.inl (lenientOrFail_ok_issues _ r h)

/-- Helper: the possible outcomes of the fallback stage of `ParseReview`. -/
theorem parseReviewFallback_result (s : List Char) :
    parseReviewFallback s = { issues := [], diffs := [] } ∨
    ∃ r, ParseJSONReviewLenient s = .ok r ∧
      (r.issues.length > 0 ∨ r.diffs.length > 0) ∧
      parseReviewFallback s = packageResult r := by
  cases hl : ParseJSONReviewLenient s with
  | ok r =>
    by_cases hnz : r.issues.length > 0 ∨ r.diffs.length > 0
    · right
      exact ⟨r, rfl, hnz, by simp [parseReviewFallback, hl, hnz]⟩
    · left
      simp [parseReviewFallback, hl, hnz]
  | error u =>
    left
    simp [parseReviewFallback, hl]

/-- Helper: a `ParseReview` result is empty, or the cleaned packaging of a
usable JSON-stage result, or the cleaned packaging of a usable
lenient-stage result. -/
theorem parseReview_result_cases (s : List Char) :
    ParseReview s = { issues := [], diffs := [] } ∨
    (∃ r, ParseJSONReview s = .ok r ∧
        (r.issues.length > 0 ∨ r.diffs.length > 0) ∧
        ParseReview s = packageResult r) ∨
    (∃ r, ParseJSONReviewLenient s = .ok r ∧
        (r.issues.length > 0 ∨ r.diffs.length > 0) ∧
        ParseReview s = packageResult r) := by
  by_cases hs : s.isEmpty = true
  · left
    simp [ParseReview, hs]
  · cases hp : ParseJSONReview s with
    | ok r =>
      by_cases hnz : r.issues.length > 0 ∨ r.diffs.length > 0
      · right
        left
        exact ⟨r, rfl, hnz, by simp [ParseReview, hs, hp, hnz]⟩
      · have hfb : ParseReview s = parseReviewFallback s := by
          simp [ParseReview, hs, hp, hnz]
        rcases parseReviewFallback_result s with he | ⟨r2, hl, hnz2, he⟩
        · left
          rw [hfb, he]
        · right
          right
          exact ⟨r2, hl, hnz2, by rw [hfb, he]⟩
    | error u =>
      have hfb : ParseReview s = parseReviewFallback s := by
        simp [ParseReview, hs, hp]
      rcases parseReviewFallback_result s with he | ⟨r2, hl, hnz2, he⟩
      · left
        rw [hfb, he]
      · right
        right
        exact ⟨r2, hl, hnz2, by rw [hfb, he]⟩

/-- C1 (amended; the claim as stated fails: a decode with zero issues is
rejected by `ParseJSONReview` even when it carries diffs, and the lenient
stage needs a title match, so diffs alone never make a usable result):
whenever a `ParseReview` result carries any diff it also carries at least
one issue; the zero-issue case falls through to the empty result. -/
theorem diffs_only_never_usable (s : List Char)
    (h : (ParseReview s).diffs ≠ []) : (ParseReview s).issues ≠ [] := by
  rcases parseReview_result_cases s with he | ⟨r, hp, hnz, he⟩ | ⟨r, hl, hnz, he⟩
  · rw [he] at h
    simp at h
  · rw [he] at h ⊢
    rcases parseJSONReview_ok_inv s r hp with hi | hd
    · simp only [packageResult, cleanupIssues]
      intro hnil
      exact hi (List.map_eq_nil_iff.mp hnil)
    · simp [packageResult, hd] at h
  · rw [he] at h ⊢
    have hne := lenient_ok_issues_nonempty s r hl
    simp only [packageResult, cleanupIssues]
    intro hnil
    exact hne (List.map_eq_nil_iff.mp hnil)

set_option maxRecDepth 1000000 in
/-- Witness for `diffs_only_never_usable`: a one-issue-one-diff response
yields a result with diffs, hence with issues. -/
theorem diffs_only_never_usable_witness :
    (ParseReview oneIssueOneDiffResponse).diffs ≠ [] ∧
    (ParseReview oneIssueOneDiffResponse).issues ≠ [] :=
  ⟨by decide, diffs_only_never_usable oneIssueOneDiffResponse (by decide)⟩

set_option maxRecDepth 1000000 in
/-- C1 counterexample: for a response whose decoded content has zero issues
and one diff, `ParseReview` produces the empty result, not a result
carrying that diff. -/
theorem diffs_only_usable_counterexample :
    jsonUnmarshalReview (preprocessSpecialChars (cleanResponse
        (RemoveThinkTags zeroIssueDiffResponse)))
      = some { issues := [],
               diffs := [{ file := "a.go".data, diff := ['x'] }] } ∧
    ParseReview zeroIssueDiffResponse = { issues := [], diffs := [] } :=
  ⟨by decide, by decide⟩

/-- C2 (amended; the claim as stated fails: no deduplication by file ever
happens): when the JSON stage succeeds and the result is usable,
`ParseReview` passes the parsed diff list through unchanged — duplicates
for the same file included. -/
theorem diffs_passed_through (s : List Char) (r : JSONReviewResult)
    (hp : ParseJSONReview s = .ok r)
    (hnz : r.issues.length > 0 ∨ r.diffs.length > 0) :
    (ParseReview s).diffs = r.diffs := by
  by_cases hs : s.isEmpty = true
  · rw [ParseJSONReview, if_pos hs] at hp
    injection hp with hr
    rw [← hr] at hnz
    simp at hnz
  · have hfb : ParseReview s = packageResult r := by
      simp [ParseReview, hs, hp, hnz]
    rw [hfb]
    rfl

set_option maxRecDepth 1000000 in
/-- Witness for `diffs_passed_through`: the duplicate-diff response keeps
both diffs for file "a". -/
theorem diffs_passed_through_witness :
    (ParseReview dupDiffResponse).diffs = dupDiffDecoded.diffs :=
  diffs_passed_through dupDiffResponse dupDiffDecoded rfl (by decide)

set_option maxRecDepth 1000000 in
/-- C2 counterexample: a response with one issue and two diffs for the same
file "a" yields a result retaining both diffs, not only the first. -/
theorem diff_dedup_counterexample :
    ParseReview dupDiffResponse =
      { issues := [{ title := ['t'], explanation := ['e'], diff := [],
                     file := "General".data }],
        diffs := [{ file := ['a'], diff := ['1'] },
                  { file := ['a'], diff := ['2'] }] } ∧
    (ParseReview dupDiffResponse).diffs.map FileDiff.file = [['a'], ['a']] :=
  ⟨by decide, by decide⟩

end GitLLM